import Mathlib

/-!
Verification of the container-identity / path codec of the Mesos
containerizer (`src/slave/containerizer/mesos/paths.cpp`) and of the
containerizer lifecycle behaviour documented by the repository's tests
(`src/tests/containerizer/mesos_containerizer_tests.cpp`).

Paths are modelled as lists of characters (`Str`).  The functions
`buildPath`, `getRuntimePath`, `getSandboxPath`, `parseSandboxPath`,
`getContainerIds`, `getContainerPid` and `getContainerStatus` are direct
translations of the C++ source.  The `stout` string/path helpers
(`path::join`, `strings::tokenize`, `strings::startsWith`, `numify`) are
part of the repository but outside the given sources, so they are modelled
from their documented semantics.
-/

abbrev Str : Type := List Char

/-- A container identity: a value plus an optional parent identity
(protobuf `ContainerID`). -/
inductive ContainerID : Type where
  | mk (value : Str) (parent : Option ContainerID)

def ContainerID.value : ContainerID → Str
  | .mk v _ => v

def ContainerID.parentOf : ContainerID → Option ContainerID
  | .mk _ p => p

/-- `ContainerID.has_parent`, as in the protobuf API. -/
def ContainerID.has_parent (c : ContainerID) : Bool := c.parentOf.isSome

def ContainerID.decEq : (a b : ContainerID) → Decidable (a = b)
  | .mk v none, .mk w none =>
      if h : v = w then .isTrue (by rw [h])
      else .isFalse (by intro hh; cases hh; exact h rfl)
  | .mk v (some p), .mk w (some q) =>
      if h : v = w then
        match ContainerID.decEq p q with
        | .isTrue hp => .isTrue (by rw [h, hp])
        | .isFalse hp => .isFalse (by intro hh; cases hh; exact hp rfl)
      else .isFalse (by intro hh; cases hh; exact h rfl)
  | .mk _ none, .mk _ (some _) => .isFalse (by intro hh; cases hh)
  | .mk _ (some _), .mk _ none => .isFalse (by intro hh; cases hh)

instance : DecidableEq ContainerID := ContainerID.decEq

/-- Modelled from the spec: `stout`'s `strings::remove(s, "/", PREFIX)`
(used by `path::join`), which removes a single leading separator. -/
def stripLeadSlash (s : Str) : Str :=
  match s with
  | [] => []
  | c :: t => if c = '/' then t else c :: t

/-- Modelled from the spec: `stout`'s `strings::remove(s, "/", SUFFIX)`
(used by `path::join`), which removes a single trailing separator. -/
def stripTrailSlash (s : Str) : Str :=
  if s.getLast? = some '/' then s.dropLast else s

namespace path

/-- Modelled from the spec: `stout`'s `path::join(a, b)` — strip one
trailing separator from `a`, one leading separator from `b`, and glue
with a single separator. -/
def join (p q : Str) : Str :=
  stripTrailSlash p ++ '/' :: stripLeadSlash q

/-- Three-argument `path::join`, left associated as in `stout`. -/
def join3 (p q r : Str) : Str := join (join p q) r

end path

namespace strings

def tokenizeAux : Str → Str → List Str
  | cur, [] => if cur = [] then [] else [cur.reverse]
  | cur, c :: rest =>
      if c = '/' then
        if cur = [] then tokenizeAux [] rest else cur.reverse :: tokenizeAux [] rest
      else tokenizeAux (c :: cur) rest

/-- Modelled from the spec: `stout`'s `strings::tokenize(s, "/")` —
the maximal non-empty runs of characters between separators. -/
def tokenize (s : Str) : List Str := tokenizeAux [] s

/-- Modelled from the spec: `stout`'s `strings::startsWith`. -/
def startsWith : Str → Str → Bool
  | _, [] => true
  | [], _ :: _ => false
  | c :: cs, p :: ps => p == c && startsWith cs ps

end strings

/-- Modelled from the spec: the `CONTAINER_DIRECTORY` constant declared in
`slave/containerizer/mesos/paths.hpp` (outside the given sources); the
comment in `parseSandboxPath` ("the sandbox layout is the following:
'.../runs/x/containers/y/containers/z'") fixes it to `"containers"`. -/
def CONTAINER_DIRECTORY : Str := "containers".data

/-- Modelled from the spec: the `PID_FILE` constant of `paths.hpp`. -/
def PID_FILE : Str := "pid".data

/-- Modelled from the spec: the `STATUS_FILE` constant of `paths.hpp`. -/
def STATUS_FILE : Str := "status".data

/-- `buildPath` from `paths.cpp`: interleave `prefix` before each value of
the identity's root-to-leaf ancestry. -/
def buildPath (containerId : ContainerID) (px : Str) : Str :=
  match containerId with
  | .mk v none => path.join px v
  | .mk v (some p) => path.join3 (buildPath p px) px v

/-- `getRuntimePath` from `paths.cpp`. -/
def getRuntimePath (runtimeDir : Str) (containerId : ContainerID) : Str :=
  path.join runtimeDir (buildPath containerId CONTAINER_DIRECTORY)

/-- `getSandboxPath` from `paths.cpp`: the root container lives at the root
sandbox path itself; each nesting level appends `containers/<value>`. -/
def getSandboxPath (rootSandboxPath : Str) : ContainerID → Str
  | .mk _ none => rootSandboxPath
  | .mk v (some p) =>
      path.join3 (getSandboxPath rootSandboxPath p) "containers".data v

/-- The token walk of `parseSandboxPath` (`for (size_t i = 0; ...)`):
even positions must equal `CONTAINER_DIRECTORY` (otherwise `break`), odd
positions extend the identity chain by one level. -/
def parseLoop : ContainerID → List Str → Nat → ContainerID
  | cur, [], _ => cur
  | cur, t :: rest, i =>
      if i % 2 = 0 then
        if t ≠ CONTAINER_DIRECTORY then cur
        else parseLoop cur rest (i + 1)
      else parseLoop (ContainerID.mk t (some cur)) rest (i + 1)

/-- `parseSandboxPath` from `paths.cpp`. -/
def parseSandboxPath (rootContainerId : ContainerID)
    (rootSandboxPath0 dirPath : Str) : Except Str ContainerID :=
  let rootSandboxPath := path.join rootSandboxPath0 []
  if strings.startsWith dirPath rootSandboxPath = true then
    Except.ok
      (parseLoop rootContainerId
        (strings.tokenize (dirPath.drop rootSandboxPath.length)) 0)
  else
    Except.error
      ("Directory '".data ++ dirPath ++
        "' does not fall under the root sandbox directory '".data ++
        rootSandboxPath ++ "'".data)

def exceptOk {ε α : Type} : Except ε α → Bool
  | .ok _ => true
  | .error _ => false

/-- A path segment is well-formed when it is non-empty and contains no
separator character. -/
def validSeg (v : Str) : Bool := (!v.isEmpty) && v.all (fun c => c != '/')

/-- Extend an identity by a root-to-leaf list of child values. -/
def extend (root : ContainerID) : List Str → ContainerID
  | [] => root
  | v :: rest => extend (ContainerID.mk v (some root)) rest

/-- The root ancestor of an identity. -/
def rootOf : ContainerID → ContainerID
  | .mk v none => .mk v none
  | .mk _ (some p) => rootOf p

/-- The values strictly below the root, ordered root-to-leaf. -/
def chainValues : ContainerID → List Str
  | .mk _ none => []
  | .mk v (some p) => chainValues p ++ [v]

/-- All ancestry values, root included, ordered root-to-leaf. -/
def ancestryValues : ContainerID → List Str
  | .mk v none => [v]
  | .mk v (some p) => ancestryValues p ++ [v]

/-- One nesting level of the sandbox layout: `/containers/<value>`. -/
def lvlChunk (v : Str) : Str := '/' :: (CONTAINER_DIRECTORY ++ '/' :: v)

/-- The token sequence of a well-formed nested sandbox path: the marker
segment alternated with one identity value per nesting level. -/
def pairToks : List Str → List Str
  | [] => []
  | v :: rest => CONTAINER_DIRECTORY :: v :: pairToks rest

/-- Spec side of C1's best-effort clause: walk the tokens in pairs
(marker segment, identity segment); the walk stops at the first pair whose
marker does not match, yielding the values of the longest alternating
prefix. -/
def pairWalkValues : List Str → List Str
  | m :: v :: rest =>
      if m = CONTAINER_DIRECTORY then v :: pairWalkValues rest else []
  | _ => []

/-- Spec side of C2 as claimed: `root / seg(id_0) / DIR / seg(id_1) / … /
DIR / seg(id_n)` (no marker before the first segment). -/
def claimedRuntimePath (root marker : Str) (vals : List Str) : Str :=
  match vals with
  | [] => root
  | v :: rest =>
      rest.foldl (fun acc w => path.join (path.join acc marker) w)
        (path.join root v)

/-- Spec side of C2 as amended: `root / DIR / seg(id_0) / DIR / seg(id_1)
/ … / DIR / seg(id_n)` (a marker segment before every value). -/
def specRuntimePath (root marker : Str) (vals : List Str) : Str :=
  vals.foldl (fun acc v => path.join (path.join acc marker) v) root

/-- A runtime-directory tree (the sub-directories of one
`CONTAINER_DIRECTORY` level): entry name plus nested entries. -/
inductive FsTree : Type where
  | node (name : Str) (children : List FsTree)

/-- The recursive lambda `helper` of `getContainerIds`: for each directory
entry, synthesize the child identity, emit it, then recurse into its
subtree before moving to the next sibling. -/
def goIds (parent : Option ContainerID) : List FsTree → List ContainerID
  | [] => []
  | FsTree.node nm cs :: rest =>
      let c := ContainerID.mk nm parent
      c :: (goIds (some c) cs ++ goIds parent rest)

/-- `getContainerIds` from `paths.cpp`, over the modelled directory tree. -/
def getContainerIds (runtimeTree : List FsTree) : List ContainerID :=
  goIds none runtimeTree

/-- `p` occurs strictly before (an occurrence of) `c` in `l`. -/
def Before (p c : ContainerID) (l : List ContainerID) : Prop :=
  ∃ l₁ l₂, l = l₁ ++ p :: l₂ ∧ c ∈ l₂

/-- Outcome of `os::read`. -/
inductive TryRead : Type where
  | readOk (s : Str)
  | readErr (e : Str)
deriving DecidableEq

/-- The ambient file system, as seen by the checkpoint readers:
existence and content of files, addressed by path. -/
structure FileSystem : Type where
  fsExists : Str → Bool
  fsRead : Str → TryRead

/-- `stout`'s `Result<T>`: a value, an absent value, or an error. -/
inductive SResult (α : Type) : Type where
  | someR (a : α)
  | noneR
  | errorR (msg : Str)
deriving DecidableEq

def SResult.isErrorR {α : Type} : SResult α → Bool
  | .errorR _ => true
  | _ => false

def digitVal (c : Char) : Nat := c.toNat - '0'.toNat

def digitsToNat (s : Str) : Nat :=
  s.foldl (fun acc c => acc * 10 + digitVal c) 0

/-- Modelled from the spec: `stout`'s `numify<T>` applied to checkpoint
content, which the spec describes as "integer text": an optional minus
sign followed by at least one decimal digit; anything else fails. -/
def numify (s : Str) : Except Unit Int :=
  match s with
  | [] => .error ()
  | '-' :: rest =>
      if rest ≠ [] ∧ rest.all (fun c => c.isDigit) then
        .ok (-(digitsToNat rest : Int))
      else .error ()
  | _ =>
      if s.all (fun c => c.isDigit) then .ok (digitsToNat s : Int)
      else .error ()

/-- The path of the pid checkpoint file of a container. -/
def pidFilePath (runtimeDir : Str) (containerId : ContainerID) : Str :=
  path.join (getRuntimePath runtimeDir containerId) PID_FILE

/-- The path of the status checkpoint file of a container. -/
def statusFilePath (runtimeDir : Str) (containerId : ContainerID) : Str :=
  path.join (getRuntimePath runtimeDir containerId) STATUS_FILE

/-- `getContainerPid` from `paths.cpp`: absent file is `None`; a read
failure or non-numeric content is an `Error`. -/
def getContainerPid (fs : FileSystem) (runtimeDir : Str)
    (containerId : ContainerID) : SResult Int :=
  let p := pidFilePath runtimeDir containerId
  if fs.fsExists p = false then .noneR
  else
    match fs.fsRead p with
    | .readErr e => .errorR ("Failed to recover pid of container: ".data ++ e)
    | .readOk s =>
        match numify s with
        | .error _ => .errorR ("Failed to numify pid '".data ++ s ++ "'".data)
        | .ok n => .someR n

/-- `getContainerStatus` from `paths.cpp`: absent file is `None`; empty
content is `None`; a read failure or non-numeric non-empty content is an
`Error`. -/
def getContainerStatus (fs : FileSystem) (runtimeDir : Str)
    (containerId : ContainerID) : SResult Int :=
  let p := statusFilePath runtimeDir containerId
  if fs.fsExists p = false then .noneR
  else
    match fs.fsRead p with
    | .readErr e => .errorR ("Unable to read status for container".data ++ e)
    | .readOk s =>
        if s ≠ [] then
          match numify s with
          | .error _ => .errorR ("Unable to read status for container".data ++ s)
          | .ok n => .someR n
        else .noneR

/-!
## Containerizer lifecycle model

The `MesosContainerizerProcess` itself is part of the repository but
outside the given sources; only its tests are available.  The model below
is therefore built from the spec (§4.2 Launch Pipeline, §4.3 Destroy
Coordinator, §4.4 Recovery) and, where the repository's own tests pin the
behaviour down, from those tests.
-/

/-- The pipeline stage a container is currently in (spec §4.2), with the
stages the claims under verification do not distinguish collapsed:
`running` covers ISOLATING/WATCHING, and `destroyingProc` is the window
in which the launcher's destroy call is in flight (spec §4.3 step 3). -/
inductive Phase : Type where
  | fetching
  | provisioning
  | preparing (outstanding : List Nat)
  | forking
  | running
  | destroyingProc
deriving DecidableEq

/-- Modelled from the spec: the per-container Registry record (§3):
lifecycle state, the isolators engaged and those that completed
`prepare`, the provisioned-root marker, the checkpointed pid, and the
"destroy requested" flag. -/
structure CRecord : Type where
  hasImage : Bool
  isolators : List Nat
  prepared : List Nat
  prepFailed : Bool
  provisioned : Bool
  pid : Option Nat
  destroyRequested : Bool
  phase : Phase
deriving DecidableEq

/-- A Termination Result (spec §3): optional process exit status. -/
structure Termination : Type where
  exitStatus : Option Int
deriving DecidableEq

/-- Resolution of a container's single-resolution outcome slot: a
Termination Result, or a failure (launcher destroy failed). -/
inductive Outcome : Type where
  | term (t : Termination)
  | destroyFailed
deriving DecidableEq

/-- Modelled from the spec: the orchestrator state — the Registry, the
resolved outcome slots, the destroy-error counter, and logs of the
isolator-cleanup and provisioner-teardown invocations issued so far. -/
structure Sys : Type where
  registry : ContainerID → Option CRecord
  outcomes : ContainerID → Option Outcome
  destroyErrors : Nat
  cleanups : List (ContainerID × Nat)
  provisionerTeardowns : List ContainerID

def initSys : Sys :=
  { registry := fun _ => none
    outcomes := fun _ => none
    destroyErrors := 0
    cleanups := []
    provisionerTeardowns := [] }

def updF {β : Type} (f : ContainerID → Option β) (c : ContainerID)
    (v : Option β) : ContainerID → Option β :=
  fun c' => if c' = c then v else f c'

def setRec (s : Sys) (c : ContainerID) (r : CRecord) : Sys :=
  { s with registry := updF s.registry c (some r) }

/-- Modelled from the spec (§4.3 steps 4–6): cleanup every isolator that
completed `prepare` — and only those — then provisioner teardown if a
root was provisioned, then fulfill the outcome slot and remove the
record. -/
def teardown (s : Sys) (c : ContainerID) (r : CRecord) (o : Outcome) : Sys :=
  { registry := updF s.registry c none
    outcomes := updF s.outcomes c (some o)
    destroyErrors := s.destroyErrors
    cleanups := s.cleanups ++ r.prepared.map (fun i => (c, i))
    provisionerTeardowns :=
      s.provisionerTeardowns ++ (if r.provisioned then [c] else []) }

/-- After the fetch stage: provision if an image was specified, else go
prepare (fork directly when no isolator is configured). -/
def dispatchPrepare (s : Sys) (c : ContainerID) (r : CRecord) : Sys :=
  if r.isolators = [] then setRec s c { r with phase := .forking }
  else setRec s c { r with phase := .preparing r.isolators }

/-- The value `destroy` resolves to: immediately `false` for an unknown
identity, else the eventual teardown outcome (spec §4.3 / §7). -/
inductive DestroyReply : Type where
  | immediateFalse
  | eventual
deriving DecidableEq

/-- Modelled from the spec (§4.3) and the repository tests: `destroy`.
Unknown identity: immediately `false` (test `DestroyUnknownContainer`).
FETCHING: the fetch is abandoned and teardown runs at once — the test
`DestroyWhileFetching` pins this down ("should complete without waiting
for the fetching to finish").  PROVISIONING / PREPARING / FORKING: mark
"destroy requested" and defer to the stage's settlement.  RUNNING:
dispatch the launcher's destroy.  A second destroy is a no-op. -/
def destroyStep (s : Sys) (c : ContainerID) : DestroyReply × Sys :=
  match s.registry c with
  | none => (.immediateFalse, s)
  | some r =>
      if r.destroyRequested then (.eventual, s)
      else
        match r.phase with
        | .fetching => (.eventual, teardown s c r (.term ⟨none⟩))
        | .provisioning =>
            (.eventual, setRec s c { r with destroyRequested := true })
        | .preparing out =>
            (.eventual,
              setRec s c { r with destroyRequested := true, phase := .preparing out })
        | .forking =>
            (.eventual, setRec s c { r with destroyRequested := true })
        | .running =>
            (.eventual,
              setRec s c { r with destroyRequested := true, phase := .destroyingProc })
        | .destroyingProc =>
            (.eventual, setRec s c { r with destroyRequested := true })

/-- The discrete messages processed by the serialized control loop
(spec §5): external calls and completions of asynchronous sub-calls. -/
inductive Event : Type where
  | launch (c : ContainerID) (hasImage : Bool) (isolators : List Nat)
  | fetchSettled (c : ContainerID) (ok : Bool)
  | provisionSettled (c : ContainerID) (ok : Bool)
  | prepareSettled (c : ContainerID) (iso : Nat) (ok : Bool)
  | forkSettled (c : ContainerID) (res : Option Nat)
  | processExited (c : ContainerID) (status : Int)
  | destroyCall (c : ContainerID)
  | launcherDestroySettled (c : ContainerID) (ok : Bool)

/-- Modelled from the spec (§4.2–§4.3): one step of the serialized
control loop.  Events for identities not in the expected stage are
stale and ignored. -/
def step (s : Sys) : Event → Sys
  | .launch c hasImage isolators =>
      match s.registry c with
      | some _ => s
      | none =>
          { s with
            registry := updF s.registry c (some
              { hasImage := hasImage, isolators := isolators, prepared := []
                prepFailed := false, provisioned := false, pid := none
                destroyRequested := false, phase := .fetching })
            outcomes := updF s.outcomes c none }
  | .fetchSettled c ok =>
      match s.registry c with
      | some r =>
          if r.phase = .fetching then
            if ok then
              if r.hasImage then setRec s c { r with phase := .provisioning }
              else dispatchPrepare s c r
            else teardown s c r (.term ⟨none⟩)
          else s
      | none => s
  | .provisionSettled c ok =>
      match s.registry c with
      | some r =>
          if r.phase = .provisioning then
            let r' := { r with provisioned := true }
            if r.destroyRequested then teardown s c r' (.term ⟨none⟩)
            else if ok then dispatchPrepare s c r'
            else teardown s c r' (.term ⟨none⟩)
          else s
      | none => s
  | .prepareSettled c iso ok =>
      match s.registry c with
      | some r =>
          match r.phase with
          | .preparing out =>
              if iso ∈ out then
                let out' := out.erase iso
                let r' := { r with
                  prepared := if ok then r.prepared ++ [iso] else r.prepared
                  prepFailed := r.prepFailed || !ok }
                if out' = [] then
                  if r'.destroyRequested || r'.prepFailed then
                    teardown s c r' (.term ⟨none⟩)
                  else setRec s c { r' with phase := .forking }
                else setRec s c { r' with phase := .preparing out' }
              else s
          | _ => s
      | none => s
  | .forkSettled c res =>
      match s.registry c with
      | some r =>
          if r.phase = .forking then
            match res with
            | none => teardown s c r (.term ⟨none⟩)
            | some pid =>
                if r.destroyRequested then
                  setRec s c { r with pid := some pid, phase := .destroyingProc }
                else setRec s c { r with pid := some pid, phase := .running }
          else s
      | none => s
  | .processExited c status =>
      match s.registry c with
      | some r =>
          if r.phase = .running then teardown s c r (.term ⟨some status⟩) else s
      | none => s
  | .destroyCall c => (destroyStep s c).2
  | .launcherDestroySettled c ok =>
      match s.registry c with
      | some r =>
          if r.phase = .destroyingProc then
            if ok then teardown s c r (.term ⟨none⟩)
            else
              { teardown s c r .destroyFailed with
                destroyErrors := s.destroyErrors + 1 }
          else s
      | none => s

/-- The states reachable by the control loop from the empty registry. -/
inductive Reachable : Sys → Prop where
  | init : Reachable initSys
  | next {s : Sys} (hs : Reachable s) (e : Event) : Reachable (step s e)

/-- What a waiter observes who subscribed to a container's outcome slot
while the record lived: the resolved outcome once teardown fulfills the
slot, else pending.  This is the view the destroy-race claims use; a
*fresh* `wait` call is `waitCall` below, which checks only Registry
membership. -/
inductive WaitRes : Type where
  | absent
  | pending
  | resolvedT (t : Termination)
  | failedW
deriving DecidableEq

def waitQ (s : Sys) (c : ContainerID) : WaitRes :=
  match s.outcomes c with
  | some (.term t) => .resolvedT t
  | some .destroyFailed => .failedW
  | none => if (s.registry c).isSome then .pending else .absent

/-- Resolution of a fresh `wait(identity)` call: immediately absent
(`None`), or subscribed to the live record's outcome slot. -/
inductive WaitCallRes : Type where
  | absentNow
  | subscribed
deriving DecidableEq

/-- Modelled from the spec (§6): a fresh `wait(identity)` call checks only
Registry membership — "absent = unknown identity, never an error".  With
no record (never launched, or already removed) it resolves to an absent
result immediately; otherwise it subscribes to the record's outcome slot,
whose eventual resolution `waitQ` observes. -/
def waitCall (s : Sys) (c : ContainerID) : WaitCallRes :=
  if (s.registry c).isSome then .subscribed else .absentNow

/-- The cleanup-log entries concerning container `c`. -/
def cleanupsFor (s : Sys) (c : ContainerID) : List (ContainerID × Nat) :=
  s.cleanups.filter (fun e => e.1 == c)

/-- One checkpointed container description handed to `recover`:
identity, whether the checkpoint shows it was launched by this (Mesos)
containerizer, and the checkpointed pid if any. -/
structure RecoverEntry : Type where
  id : ContainerID
  mesosOwned : Bool
  pid : Option Nat

/-- Modelled from the spec (§4.4) and test `SkipRecoverNonMesosContainers`:
rebuild the Registry from the checkpointed descriptions, skipping every
identity launched under a different containerizer implementation. -/
def recover (entries : List RecoverEntry) : Sys :=
  { registry := fun c =>
      match (entries.filter (fun e => e.mesosOwned)).find? (fun e => e.id == c) with
      | some e => some
          { hasImage := false, isolators := [], prepared := []
            prepFailed := false, provisioned := false, pid := e.pid
            destroyRequested := false, phase := .running }
      | none => none
    outcomes := fun _ => none
    destroyErrors := 0
    cleanups := []
    provisionerTeardowns := [] }

/-- `containers()` membership: the identity has a Registry entry. -/
def containersMem (s : Sys) (c : ContainerID) : Bool :=
  (s.registry c).isSome

/-- The Registry invariants the temporal claims rest on: a live record's
outcome slot is unresolved, and containers still in the fetch or
provision stage have no prepared isolators and, while fetching, no
destroy request (destroy during FETCHING tears down at once). -/
def GoodSys (s : Sys) : Prop :=
  ∀ c r, s.registry c = some r →
    s.outcomes c = none ∧
    ((r.phase = .fetching ∨ r.phase = .provisioning) → r.prepared = []) ∧
    (r.phase = .fetching → r.destroyRequested = false)

/-!
### Concrete instances used by witnesses and counterexamples
-/

def R1 : Str := "/tmp/s".data

def rootId1 : ContainerID := ContainerID.mk "r".data none

def id1 : ContainerID := ContainerID.mk "y".data (some rootId1)

def badPath1 : Str := "/tmp/s/containers/a/bogus".data

def rt2 : Str := "r".data

def rootId2 : ContainerID := ContainerID.mk "x".data none

def forest3 : List FsTree := [FsTree.node "a".data [FsTree.node "b".data []]]

def ca3 : ContainerID := ContainerID.mk "a".data none

def cb3 : ContainerID := ContainerID.mk "b".data (some ca3)

def rd4 : Str := "run".data

def cid4 : ContainerID := ContainerID.mk "x".data none

/-- A file system in which the pid checkpoint file exists with empty
content and every other file is absent. -/
def fsEmptyPid : FileSystem :=
  { fsExists := fun p => p == pidFilePath rd4 cid4
    fsRead := fun _ => .readOk [] }

def c0 : ContainerID := ContainerID.mk "c".data none

/-- Launched (no image, no isolator), still fetching. -/
def sysFetching : Sys := step initSys (.launch c0 false [])

/-- Launched and then destroyed: the record has been removed from the
Registry (its outcome slot was fulfilled on the way out). -/
def sysRemoved : Sys := step sysFetching (.destroyCall c0)

/-- Launched with an image, fetch settled: provisioning. -/
def sysProvisioning : Sys :=
  step (step initSys (.launch c0 true [])) (.fetchSettled c0 true)

/-- Destroy requested while provisioning. -/
def sysProvDestroy : Sys := step sysProvisioning (.destroyCall c0)

/-- Launched with isolators 1 and 2, fetch settled: preparing. -/
def sysPreparing : Sys :=
  step (step initSys (.launch c0 false [1, 2])) (.fetchSettled c0 true)

/-- Destroy requested while both prepare calls are outstanding. -/
def sysPrepDestroy : Sys := step sysPreparing (.destroyCall c0)

/-- One prepare call settled after the destroy request; one outstanding. -/
def sysPrepDestroy1 : Sys := step sysPrepDestroy (.prepareSettled c0 1 true)

/-- Running container (fetch, prepare of isolator 1, fork all settled),
with a destroy in flight at the launcher. -/
def sysDestroying : Sys :=
  step (step (step (step (step initSys
    (.launch c0 false [1]))
    (.fetchSettled c0 true))
    (.prepareSettled c0 1 true))
    (.forkSettled c0 (some 7)))
    (.destroyCall c0)

def recoverEntries9 : List RecoverEntry :=
  [{ id := c0, mesosOwned := false, pid := some 42 }]

def recFetching : CRecord :=
  { hasImage := false, isolators := [], prepared := [], prepFailed := false
    provisioned := false, pid := none, destroyRequested := false
    phase := .fetching }

def recProvDestroy : CRecord :=
  { hasImage := true, isolators := [], prepared := [], prepFailed := false
    provisioned := false, pid := none, destroyRequested := true
    phase := .provisioning }

def recPrepDestroy : CRecord :=
  { hasImage := false, isolators := [1, 2], prepared := [], prepFailed := false
    provisioned := false, pid := none, destroyRequested := true
    phase := .preparing [1, 2] }

def recPrepDestroy1 : CRecord :=
  { hasImage := false, isolators := [1, 2], prepared := [1], prepFailed := false
    provisioned := false, pid := none, destroyRequested := true
    phase := .preparing [2] }

def recDestroying : CRecord :=
  { hasImage := false, isolators := [1], prepared := [1], prepFailed := false
    provisioned := false, pid := some 7, destroyRequested := true
    phase := .destroyingProc }

/-!
## Theorems

### String and path lemmas
-/

theorem stripTrailSlash_concat (xs : Str) (c : Char) :
    stripTrailSlash (xs ++ [c]) = if c = '/' then xs else xs ++ [c] := by
  by_cases h : c = '/' <;>
    simp [stripTrailSlash, List.getLast?_concat, h]

theorem stripTrailSlash_append (x r : Str) (h : r ≠ []) :
    stripTrailSlash (x ++ r) = x ++ stripTrailSlash r := by
  rcases List.eq_nil_or_concat r with rfl | ⟨ys, b, rfl⟩
  · exact absurd rfl h
  · rw [List.concat_eq_append, ← List.append_assoc,
        stripTrailSlash_concat, stripTrailSlash_concat]
    by_cases hb : b = '/' <;> simp [hb]

theorem stripTrailSlash_cons_ne (c : Char) (s : Str) (h : c ≠ '/') :
    ∃ t, stripTrailSlash (c :: s) = c :: t := by
  rcases List.eq_nil_or_concat s with rfl | ⟨ys, b, rfl⟩
  · exact ⟨[], by simp [stripTrailSlash, h]⟩
  · rw [List.concat_eq_append,
        show c :: (ys ++ [b]) = (c :: ys) ++ [b] by simp,
        stripTrailSlash_concat]
    by_cases hb : b = '/'
    · exact ⟨ys, by simp [hb]⟩
    · exact ⟨ys ++ [b], by simp [hb]⟩

theorem stripTrailSlash_eq_self (s : Str) (h : s.getLast? ≠ some '/') :
    stripTrailSlash s = s := by
  simp [stripTrailSlash, h]

theorem stripLeadSlash_cons_ne (c : Char) (t : Str) (h : c ≠ '/') :
    stripLeadSlash (c :: t) = c :: t := by
  simp [stripLeadSlash, h]

theorem validSeg_iff (v : Str) :
    validSeg v = true ↔ v ≠ [] ∧ ∀ c ∈ v, c ≠ '/' := by
  simp [validSeg, List.isEmpty_iff, List.all_eq_true]

theorem validSeg_getLast {v : Str} (h : validSeg v = true) :
    ∃ c, v.getLast? = some c ∧ c ≠ '/' := by
  obtain ⟨hne, hns⟩ := (validSeg_iff v).mp h
  rcases List.eq_nil_or_concat v with rfl | ⟨ys, b, rfl⟩
  · exact absurd rfl hne
  · rw [List.concat_eq_append, List.getLast?_concat]
    exact ⟨b, rfl, hns b (by simp)⟩

theorem stripLeadSlash_valid {v : Str} (h : validSeg v = true) :
    stripLeadSlash v = v := by
  obtain ⟨hne, hns⟩ := (validSeg_iff v).mp h
  cases v with
  | nil => exact absurd rfl hne
  | cons c t => exact stripLeadSlash_cons_ne c t (hns c (by simp))

theorem stripTrailSlash_valid_append (x v : Str) (h : validSeg v = true) :
    stripTrailSlash (x ++ v) = x ++ v := by
  obtain ⟨c, hc, hcne⟩ := validSeg_getLast h
  refine stripTrailSlash_eq_self _ ?_
  rw [List.getLast?_append, hc]
  simp [hcne]

theorem path.join_nil_right (p : Str) :
    path.join p [] = stripTrailSlash p ++ ['/'] := by
  simp [path.join, stripLeadSlash]

theorem path.join_assoc (a c2 : Str) (ch : Char) (bs : Str) (h : ch ≠ '/') :
    path.join a (path.join (ch :: bs) c2)
      = path.join (path.join a (ch :: bs)) c2 := by
  obtain ⟨t, ht⟩ := stripTrailSlash_cons_ne ch bs h
  simp only [path.join, ht, stripLeadSlash_cons_ne ch bs h]
  rw [List.cons_append, stripLeadSlash_cons_ne ch _ h]
  rw [show stripTrailSlash a ++ '/' :: (ch :: bs)
        = stripTrailSlash a ++ ['/'] ++ (ch :: bs) by simp]
  rw [stripTrailSlash_append _ _ (List.cons_ne_nil ch bs), ht]
  simp

theorem startsWith_append (a b : Str) :
    strings.startsWith (a ++ b) a = true := by
  induction a with
  | nil => cases b <;> rfl
  | cons c cs ih => simp [strings.startsWith, ih]

theorem startsWith_length {s p : Str} (h : strings.startsWith s p = true) :
    p.length ≤ s.length := by
  induction p generalizing s with
  | nil => simp
  | cons c cs ih =>
    cases s with
    | nil => simp [strings.startsWith] at h
    | cons d ds =>
      simp [strings.startsWith] at h
      have := ih h.2
      simp only [List.length_cons]
      omega

theorem tokenizeAux_chunk (t : Str) (h : ∀ c ∈ t, c ≠ '/') :
    ∀ (acc s : Str),
      strings.tokenizeAux acc (t ++ s)
        = strings.tokenizeAux (t.reverse ++ acc) s := by
  induction t with
  | nil => intro acc s; simp
  | cons c cs ih =>
    intro acc s
    have hc : c ≠ '/' := h c (by simp)
    simp only [List.cons_append, strings.tokenizeAux, if_neg hc, List.append_eq]
    rw [ih (fun x hx => h x (by simp [hx]))]
    simp

theorem tokenize_chunk_slash (t s : Str) (h1 : t ≠ [])
    (h2 : ∀ c ∈ t, c ≠ '/') :
    strings.tokenize (t ++ '/' :: s) = t :: strings.tokenize s := by
  unfold strings.tokenize
  rw [show t ++ '/' :: s = t ++ ('/' :: s) by rfl,
      tokenizeAux_chunk t h2 [] ('/' :: s)]
  have hr : t.reverse ≠ [] := by simpa using h1
  simp [strings.tokenizeAux, hr]

theorem tokenize_chunk_end (t : Str) (h1 : t ≠ [])
    (h2 : ∀ c ∈ t, c ≠ '/') :
    strings.tokenize t = [t] := by
  unfold strings.tokenize
  rw [show t = t ++ [] by simp] 
  rw [tokenizeAux_chunk t h2 [] []]
  have hr : t.reverse ≠ [] := by simpa using h1
  simp [strings.tokenizeAux, hr]

theorem tokenize_slash (s : Str) :
    strings.tokenize ('/' :: s) = strings.tokenize s := by
  simp [strings.tokenize, strings.tokenizeAux]

/-! ### Identity and codec lemmas -/

theorem CD_ne_nil : CONTAINER_DIRECTORY ≠ [] := by decide

theorem CD_no_slash : ∀ c ∈ CONTAINER_DIRECTORY, c ≠ '/' := by decide

theorem CD_valid : validSeg CONTAINER_DIRECTORY = true := by decide

theorem extend_concat (root : ContainerID) (xs : List Str) (v : Str) :
    extend root (xs ++ [v]) = ContainerID.mk v (some (extend root xs)) := by
  induction xs generalizing root with
  | nil => rfl
  | cons x xs ih => simp [extend, ih]

theorem rootOf_parentOf : ∀ id : ContainerID, (rootOf id).parentOf = none
  | .mk _ none => rfl
  | .mk _ (some p) => rootOf_parentOf p

theorem extend_rootOf : ∀ id : ContainerID,
    extend (rootOf id) (chainValues id) = id
  | .mk _ none => rfl
  | .mk v (some p) => by
      have ih := extend_rootOf p
      simp [rootOf, chainValues, extend_concat, ih]

theorem getSandboxPath_root (R : Str) (id : ContainerID)
    (h : id.parentOf = none) : getSandboxPath R id = R := by
  cases id with
  | mk v p =>
      cases p with
      | none => rfl
      | some q => simp [ContainerID.parentOf] at h

theorem getSandboxPath_child (R v : Str) (root' : ContainerID)
    (hv : validSeg v = true) :
    getSandboxPath R (ContainerID.mk v (some root'))
      = stripTrailSlash (getSandboxPath R root') ++ lvlChunk v := by
  have hCDv : validSeg "containers".data = true := by decide
  simp only [getSandboxPath, path.join3, path.join,
    stripLeadSlash_valid hCDv, stripLeadSlash_valid hv]
  rw [show stripTrailSlash (getSandboxPath R root') ++ '/' :: "containers".data
        = stripTrailSlash (getSandboxPath R root')
            ++ (['/'] ++ "containers".data) by simp]
  rw [stripTrailSlash_append _ _ (by simp)]
  rw [stripTrailSlash_valid_append ['/'] _ hCDv]
  simp [lvlChunk, CONTAINER_DIRECTORY]

theorem getSandboxPath_extend (R : Str) :
    ∀ (vs : List Str) (v0 : Str) (root' : ContainerID),
      validSeg v0 = true → (∀ v ∈ vs, validSeg v = true) →
      getSandboxPath R (extend root' (v0 :: vs))
        = stripTrailSlash (getSandboxPath R root') ++ lvlChunk v0
            ++ (vs.map lvlChunk).flatten := by
  intro vs
  induction vs with
  | nil =>
      intro v0 root' hv0 _
      simp [extend, getSandboxPath_child R v0 root' hv0]
  | cons v1 vs ih =>
      intro v0 root' hv0 hvs
      show getSandboxPath R (extend (ContainerID.mk v0 (some root')) (v1 :: vs)) = _
      rw [ih v1 (ContainerID.mk v0 (some root')) (hvs v1 (by simp))
            (fun v hv => hvs v (by simp [hv]))]
      rw [getSandboxPath_child R v0 root' hv0]
      have hself : stripTrailSlash
          (stripTrailSlash (getSandboxPath R root') ++ lvlChunk v0)
            = stripTrailSlash (getSandboxPath R root') ++ lvlChunk v0 := by
        rw [show stripTrailSlash (getSandboxPath R root') ++ lvlChunk v0
              = (stripTrailSlash (getSandboxPath R root')
                  ++ ('/' :: (CONTAINER_DIRECTORY ++ ['/']))) ++ v0 by
            simp [lvlChunk]]
        exact stripTrailSlash_valid_append _ v0 hv0
      rw [hself]
      simp [lvlChunk]

theorem tokenize_pairPath :
    ∀ (vs : List Str) (v0 : Str), validSeg v0 = true →
      (∀ v ∈ vs, validSeg v = true) →
      strings.tokenize (v0 ++ (vs.map lvlChunk).flatten)
        = v0 :: pairToks vs := by
  intro vs
  induction vs with
  | nil =>
      intro v0 hv0 _
      obtain ⟨h0ne, h0ns⟩ := (validSeg_iff v0).mp hv0
      simp [pairToks, tokenize_chunk_end v0 h0ne h0ns]
  | cons v1 vs ih =>
      intro v0 hv0 hvs
      obtain ⟨h0ne, h0ns⟩ := (validSeg_iff v0).mp hv0
      rw [show v0 ++ ((v1 :: vs).map lvlChunk).flatten
            = v0 ++ '/' :: (CONTAINER_DIRECTORY
                ++ '/' :: (v1 ++ (vs.map lvlChunk).flatten)) by
          simp [lvlChunk]]
      rw [tokenize_chunk_slash v0 _ h0ne h0ns]
      rw [tokenize_chunk_slash CONTAINER_DIRECTORY _ CD_ne_nil CD_no_slash]
      rw [ih v1 (hvs v1 (by simp)) (fun v hv => hvs v (by simp [hv]))]
      rfl

theorem pairWalkValues_pairToks : ∀ vs : List Str,
    pairWalkValues (pairToks vs) = vs := by
  intro vs
  induction vs with
  | nil => rfl
  | cons v vs ih => simp [pairToks, pairWalkValues, ih]

theorem parseLoop_parity : ∀ (toks : List Str) (cur : ContainerID) (i j : Nat),
    i % 2 = j % 2 → parseLoop cur toks i = parseLoop cur toks j := by
  intro toks
  induction toks with
  | nil => intros; rfl
  | cons t rest ih =>
    intro cur i j hij
    have h2 : (i + 1) % 2 = (j + 1) % 2 := by omega
    simp only [parseLoop]
    rw [hij]
    by_cases hj : j % 2 = 0
    · simp only [if_pos hj]
      by_cases ht : t ≠ CONTAINER_DIRECTORY
      · simp [ht]
      · simp only [if_neg ht]
        exact ih cur (i + 1) (j + 1) h2
    · simp only [if_neg hj]
      exact ih _ (i + 1) (j + 1) h2

theorem parseLoop_even : ∀ (toks : List Str) (cur : ContainerID),
    parseLoop cur toks 0 = extend cur (pairWalkValues toks)
  | [], _ => rfl
  | [t], cur => by
      by_cases ht : t = CONTAINER_DIRECTORY <;>
        simp [parseLoop, pairWalkValues, ht, extend]
  | m :: v :: rest, cur => by
      by_cases hm : m = CONTAINER_DIRECTORY
      · have hp : parseLoop cur (v :: rest) 1
            = parseLoop (ContainerID.mk v (some cur)) rest 2 := by
          simp [parseLoop]
        have h02 : parseLoop (ContainerID.mk v (some cur)) rest 2
            = parseLoop (ContainerID.mk v (some cur)) rest 0 :=
          parseLoop_parity rest _ 2 0 (by omega)
        have ih := parseLoop_even rest (ContainerID.mk v (some cur))
        simp [parseLoop, hm, pairWalkValues, extend, hp, h02, ih]
      · simp [parseLoop, hm, pairWalkValues, extend]

theorem parseSandboxPath_of_startsWith (rootId : ContainerID)
    (R dirPath : Str)
    (h : strings.startsWith dirPath (path.join R []) = true) :
    parseSandboxPath rootId R dirPath
      = Except.ok (extend rootId (pairWalkValues
          (strings.tokenize (dirPath.drop (path.join R []).length)))) := by
  simp [parseSandboxPath, h, parseLoop_even]

theorem roundTrip_vs (R : Str) (rootId : ContainerID)
    (hroot : rootId.parentOf = none) (v0 : Str) (vs : List Str)
    (hv0 : validSeg v0 = true) (hvs : ∀ v ∈ vs, validSeg v = true) :
    parseSandboxPath rootId R (getSandboxPath R (extend rootId (v0 :: vs)))
      = Except.ok (extend rootId (v0 :: vs)) := by
  have hshape := getSandboxPath_extend R vs v0 rootId hv0 hvs
  rw [getSandboxPath_root R rootId hroot] at hshape
  have hpfx : path.join R [] = stripTrailSlash R ++ ['/'] :=
    path.join_nil_right R
  have hpath : getSandboxPath R (extend rootId (v0 :: vs))
      = (stripTrailSlash R ++ ['/'])
          ++ (CONTAINER_DIRECTORY
              ++ '/' :: (v0 ++ (vs.map lvlChunk).flatten)) := by
    rw [hshape]; simp [lvlChunk]
  rw [hpath]
  rw [parseSandboxPath_of_startsWith rootId R _
        (by rw [hpfx]; exact startsWith_append _ _)]
  rw [hpfx, List.drop_left]
  rw [tokenize_chunk_slash CONTAINER_DIRECTORY _ CD_ne_nil CD_no_slash]
  rw [tokenize_pairPath vs v0 hv0 hvs]
  rw [show CONTAINER_DIRECTORY :: v0 :: pairToks vs = pairToks (v0 :: vs)
        from rfl]
  rw [pairWalkValues_pairToks]

/-! ### Claims C1 and C10: the sandbox-path codec -/

/-- C1, counterexample: for the root identity itself (whose root ancestor
it is), `parseSandboxPath(rootId, rootSandbox, sandboxPath(rootSandbox,
rootId))` does not succeed — the sandbox path of the root container is the
root sandbox directory itself, without a trailing separator, which the
parser rejects. -/
theorem parseSandboxPath_roundTrip_fails_at_root :
    rootOf rootId1 = rootId1 ∧
    exceptOk (parseSandboxPath rootId1 R1 (getSandboxPath R1 rootId1))
      = false := by
  decide

/-- C1 (amended): for every identity strictly below the root (its chain of
values below the root non-empty, each value a well-formed path segment)
whose root ancestor is `rootId`, the parse of its sandbox path succeeds
and returns an identity whose value and entire parent chain equal the
original's; and every path that does start with the root prefix parses —
without failing — to the identity built from the longest prefix of
segments that alternates the marker segment with an identity segment. -/
theorem parseSandboxPath_roundTrip (R : Str) (rootId : ContainerID) :
    (∀ id : ContainerID, rootOf id = rootId → chainValues id ≠ [] →
        (∀ v ∈ chainValues id, validSeg v = true) →
        parseSandboxPath rootId R (getSandboxPath R id) = Except.ok id) ∧
    (∀ dirPath : Str,
        strings.startsWith dirPath (path.join R []) = true →
        parseSandboxPath rootId R dirPath
          = Except.ok (extend rootId (pairWalkValues
              (strings.tokenize
                (dirPath.drop (path.join R []).length))))) := by
  constructor
  · intro id hroot hne hvalid
    obtain ⟨v0, vs, hcv⟩ : ∃ v0 vs, chainValues id = v0 :: vs := by
      cases h : chainValues id with
      | nil => exact absurd h hne
      | cons a l => exact ⟨a, l, rfl⟩
    have hrp : rootId.parentOf = none := by
      rw [← hroot]; exact rootOf_parentOf id
    have hv0 : validSeg v0 = true := hvalid v0 (by rw [hcv]; simp)
    have hvs : ∀ v ∈ vs, validSeg v = true := fun v hv =>
      hvalid v (by rw [hcv]; simp [hv])
    have hmain := roundTrip_vs R rootId hrp v0 vs hv0 hvs
    have hid : extend rootId (v0 :: vs) = id := by
      rw [← hcv, ← hroot]
      exact extend_rootOf id
    rw [hid] at hmain
    exact hmain
  · intro dirPath h
    exact parseSandboxPath_of_startsWith rootId R dirPath h

theorem parseSandboxPath_roundTrip_witness :
    parseSandboxPath rootId1 R1 (getSandboxPath R1 id1) = Except.ok id1 ∧
    parseSandboxPath rootId1 R1 badPath1
      = Except.ok (extend rootId1 (pairWalkValues
          (strings.tokenize (badPath1.drop (path.join R1 []).length)))) :=
  ⟨(parseSandboxPath_roundTrip R1 rootId1).1 id1 (by decide) (by decide)
      (by decide),
   (parseSandboxPath_roundTrip R1 rootId1).2 badPath1 (by decide)⟩

/-- C10: `parseSandboxPath` returns an error — not a best-effort chain —
for every path that does not start with the root sandbox directory
followed by a path separator; in particular the root sandbox path itself,
given without a trailing separator, is rejected. -/
theorem parseSandboxPath_rejects_outside (rootId : ContainerID)
    (R dirPath : Str) (hR : R.getLast? ≠ some '/') :
    (strings.startsWith dirPath (R ++ ['/']) = false →
      exceptOk (parseSandboxPath rootId R dirPath) = false) ∧
    exceptOk (parseSandboxPath rootId R R) = false := by
  have hstrip : stripTrailSlash R = R := stripTrailSlash_eq_self R hR
  have hpfx : path.join R [] = R ++ ['/'] := by
    rw [path.join_nil_right R, hstrip]
  constructor
  · intro h
    simp [parseSandboxPath, hpfx, h, exceptOk]
  · have hfalse : strings.startsWith R (R ++ ['/']) = false := by
      cases hb : strings.startsWith R (R ++ ['/'])
      · rfl
      · have hlen := startsWith_length hb
        rw [List.length_append] at hlen
        simp at hlen
    simp [parseSandboxPath, hpfx, hfalse, exceptOk]

theorem parseSandboxPath_rejects_outside_witness :
    exceptOk (parseSandboxPath rootId1 R1 "/xyz".data) = false ∧
    exceptOk (parseSandboxPath rootId1 R1 R1) = false :=
  ⟨(parseSandboxPath_rejects_outside rootId1 R1 "/xyz".data (by decide)).1
      (by decide),
   (parseSandboxPath_rejects_outside rootId1 R1 "/xyz".data (by decide)).2⟩

/-! ### Claim C2: the runtime-path layout -/

theorem path.join_head (ch : Char) (b s : Str) (h : ch ≠ '/') :
    ∃ t, path.join (ch :: b) s = ch :: t := by
  obtain ⟨t1, ht1⟩ := stripTrailSlash_cons_ne ch b h
  refine ⟨t1 ++ '/' :: stripLeadSlash s, ?_⟩
  rw [path.join, ht1]
  simp

theorem buildPath_head : ∀ id : ContainerID,
    ∃ t : Str, buildPath id CONTAINER_DIRECTORY = 'c' :: t
  | .mk v none => by
      have hsplit : CONTAINER_DIRECTORY = 'c' :: "ontainers".data := by decide
      show ∃ t, path.join CONTAINER_DIRECTORY v = 'c' :: t
      rw [hsplit]
      exact path.join_head 'c' _ v (by decide)
  | .mk v (some p) => by
      obtain ⟨t, ht⟩ := buildPath_head p
      show ∃ t2, path.join
          (path.join (buildPath p CONTAINER_DIRECTORY) CONTAINER_DIRECTORY) v
            = 'c' :: t2
      rw [ht]
      obtain ⟨t1, ht1⟩ := path.join_head 'c' t CONTAINER_DIRECTORY (by decide)
      rw [ht1]
      exact path.join_head 'c' t1 v (by decide)

/-- C2, counterexample: for a root identity `x` and runtime directory `r`,
`getRuntimePath` produces `r/containers/x`, not the claimed
`r / seg(id_0) / …` = `r/x` — the fixed marker segment also precedes the
first ancestry value. -/
theorem getRuntimePath_claim_counterexample :
    getRuntimePath rt2 rootId2
      ≠ claimedRuntimePath rt2 CONTAINER_DIRECTORY (ancestryValues rootId2) := by
  decide

/-- C2 (amended): for every root directory and identity with root-to-leaf
ancestry values `id_0, …, id_n`, `getRuntimePath` builds
`root / DIR / seg(id_0) / DIR / seg(id_1) / … / DIR / seg(id_n)` — the
nesting marker `DIR` precedes every ancestry value, the first included —
and the recursion terminates at the root identity. -/
theorem getRuntimePath_marker_shape : ∀ (root : Str) (id : ContainerID),
    getRuntimePath root id
      = specRuntimePath root CONTAINER_DIRECTORY (ancestryValues id)
  | root, .mk v none => by
      show path.join root (path.join CONTAINER_DIRECTORY v) = _
      simp only [ancestryValues, specRuntimePath, List.foldl_cons,
        List.foldl_nil]
      rw [show CONTAINER_DIRECTORY = 'c' :: "ontainers".data by decide]
      exact path.join_assoc root v 'c' _ (by decide)
  | root, .mk v (some p) => by
      have ih := getRuntimePath_marker_shape root p
      obtain ⟨t, ht⟩ := buildPath_head p
      obtain ⟨t1, ht1⟩ := path.join_head 'c' t CONTAINER_DIRECTORY (by decide)
      show path.join root (path.join
          (path.join (buildPath p CONTAINER_DIRECTORY) CONTAINER_DIRECTORY) v)
        = specRuntimePath root CONTAINER_DIRECTORY
            (ancestryValues (ContainerID.mk v (some p)))
      simp only [ancestryValues, specRuntimePath, List.foldl_append,
        List.foldl_cons, List.foldl_nil]
      rw [show (ancestryValues p).foldl
            (fun acc v => path.join (path.join acc CONTAINER_DIRECTORY) v) root
            = getRuntimePath root p from by rw [ih]; rfl]
      rw [ht, ht1, path.join_assoc root v 'c' t1 (by decide), ← ht1,
          path.join_assoc root CONTAINER_DIRECTORY 'c' t (by decide), ← ht]
      rfl

/-! ### Claim C3: enumeration order of `getContainerIds` -/

theorem before_cons {p c x : ContainerID} {l : List ContainerID}
    (h : Before p c l) : Before p c (x :: l) := by
  obtain ⟨l₁, l₂, h1, h2⟩ := h
  exact ⟨x :: l₁, l₂, by simp [h1], h2⟩

theorem before_append_left {p c : ContainerID} {A B : List ContainerID}
    (h : Before p c A) : Before p c (A ++ B) := by
  obtain ⟨l₁, l₂, h1, h2⟩ := h
  exact ⟨l₁, l₂ ++ B, by simp [h1], by simp [h2]⟩

theorem before_append_right {p c : ContainerID} {A B : List ContainerID}
    (h : Before p c B) : Before p c (A ++ B) := by
  obtain ⟨l₁, l₂, h1, h2⟩ := h
  exact ⟨A ++ l₁, l₂, by simp [h1], h2⟩

theorem before_head {p c : ContainerID} {l : List ContainerID}
    (h : c ∈ l) : Before p c (p :: l) := ⟨[], l, rfl, h⟩

theorem goIds_parent : ∀ (forest : List FsTree)
    (parent : Option ContainerID) (c p : ContainerID),
    c ∈ goIds parent forest → c.parentOf = some p →
    parent = some p ∨ Before p c (goIds parent forest)
  | [], _, _, _ => by
      intro hc _
      simp [goIds] at hc
  | FsTree.node nm cs :: rest, parent, c, p => by
      intro hc hp
      simp only [goIds, List.mem_cons, List.mem_append] at hc
      rcases hc with rfl | hc | hc
      · left
        simpa [ContainerID.parentOf] using hp
      · rcases goIds_parent cs (some (ContainerID.mk nm parent)) c p hc hp
          with h | h
        · right
          have hpc : p = ContainerID.mk nm parent := by
            injection h.symm
          subst hpc
          simp only [goIds]
          exact before_head (List.mem_append_left _ hc)
        · right
          simp only [goIds]
          exact before_cons (before_append_left h)
      · rcases goIds_parent rest parent c p hc hp with h | h
        · exact Or.inl h
        · right
          simp only [goIds]
          exact before_cons (before_append_right h)

/-- C3: in the flat sequence returned by `getContainerIds`, every identity
that has a parent appears strictly after (an occurrence of) that parent,
for runtime trees of arbitrary nesting depth and breadth. -/
theorem getContainerIds_parent_before (forest : List FsTree)
    (c p : ContainerID) (hc : c ∈ getContainerIds forest)
    (hp : c.parentOf = some p) :
    Before p c (getContainerIds forest) := by
  rcases goIds_parent forest none c p hc hp with h | h
  · exact Option.noConfusion h
  · exact h

theorem getContainerIds_parent_before_witness :
    cb3 ∈ getContainerIds forest3 ∧ Before ca3 cb3 (getContainerIds forest3) := by
  have hmem : cb3 ∈ getContainerIds forest3 := by
    simp [getContainerIds, goIds, forest3, cb3, ca3]
  exact ⟨hmem, getContainerIds_parent_before forest3 cb3 ca3 hmem (by decide)⟩

/-! ### Claim C4: checkpoint-read error handling -/

/-- C4, counterexample: a pid checkpoint file that exists with empty
content.  The read succeeds and the content is not "non-empty content
that cannot be parsed", yet `getContainerPid` reports an error (empty
text does not numify) — contradicting the claim's "report an error
exactly when the file exists but reading it fails or its non-empty
content cannot be parsed as a number". -/
theorem getContainerPid_empty_error_counterexample :
    fsEmptyPid.fsExists (pidFilePath rd4 cid4) = true ∧
    fsEmptyPid.fsRead (pidFilePath rd4 cid4) = .readOk [] ∧
    (getContainerPid fsEmptyPid rd4 cid4).isErrorR = true := by
  decide

/-- C4 (amended): `getContainerPid` and `getContainerStatus` report
"value absent" (not an error) when the checkpoint file does not exist —
and `getContainerStatus` also when the file exists but is empty — while
`getContainerStatus` errs exactly when the file exists but reading fails
or non-empty content does not parse as a number, and `getContainerPid`
errs exactly when the file exists but reading fails or the content
(empty included) does not parse as a number. -/
theorem checkpoint_read_taxonomy (fs : FileSystem) (rd : Str)
    (cid : ContainerID) :
    (getContainerPid fs rd cid = .noneR ↔
      fs.fsExists (pidFilePath rd cid) = false) ∧
    ((getContainerPid fs rd cid).isErrorR = true ↔
      fs.fsExists (pidFilePath rd cid) = true ∧
        ((∃ e, fs.fsRead (pidFilePath rd cid) = .readErr e) ∨
         (∃ s, fs.fsRead (pidFilePath rd cid) = .readOk s ∧
            exceptOk (numify s) = false))) ∧
    (getContainerStatus fs rd cid = .noneR ↔
      (fs.fsExists (statusFilePath rd cid) = false ∨
        fs.fsRead (statusFilePath rd cid) = .readOk [])) ∧
    ((getContainerStatus fs rd cid).isErrorR = true ↔
      fs.fsExists (statusFilePath rd cid) = true ∧
        ((∃ e, fs.fsRead (statusFilePath rd cid) = .readErr e) ∨
         (∃ s, fs.fsRead (statusFilePath rd cid) = .readOk s ∧ s ≠ [] ∧
            exceptOk (numify s) = false))) := by
  refine ⟨?_, ?_, ?_, ?_⟩
  · by_cases hex : fs.fsExists (pidFilePath rd cid) = false
    · simp [getContainerPid, hex]
    · simp only [Bool.not_eq_false] at hex
      cases hread : fs.fsRead (pidFilePath rd cid) with
      | readErr e => simp [getContainerPid, hex, hread]
      | readOk s =>
          cases hnum : numify s with
          | error u => simp [getContainerPid, hex, hread, hnum]
          | ok n => simp [getContainerPid, hex, hread, hnum]
  · by_cases hex : fs.fsExists (pidFilePath rd cid) = false
    · simp [getContainerPid, hex, SResult.isErrorR]
    · simp only [Bool.not_eq_false] at hex
      cases hread : fs.fsRead (pidFilePath rd cid) with
      | readErr e => simp [getContainerPid, hex, hread, SResult.isErrorR]
      | readOk s =>
          cases hnum : numify s with
          | error u =>
              simp [getContainerPid, hex, hread, hnum, SResult.isErrorR,
                exceptOk]
          | ok n =>
              simp [getContainerPid, hex, hread, hnum, SResult.isErrorR,
                exceptOk]
  · by_cases hex : fs.fsExists (statusFilePath rd cid) = false
    · simp [getContainerStatus, hex]
    · simp only [Bool.not_eq_false] at hex
      cases hread : fs.fsRead (statusFilePath rd cid) with
      | readErr e => simp [getContainerStatus, hex, hread]
      | readOk s =>
          cases s with
          | nil => simp [getContainerStatus, hex, hread]
          | cons a t =>
              cases hnum : numify (a :: t) with
              | error u => simp [getContainerStatus, hex, hread, hnum]
              | ok n => simp [getContainerStatus, hex, hread, hnum]
  · by_cases hex : fs.fsExists (statusFilePath rd cid) = false
    · simp [getContainerStatus, hex, SResult.isErrorR]
    · simp only [Bool.not_eq_false] at hex
      cases hread : fs.fsRead (statusFilePath rd cid) with
      | readErr e => simp [getContainerStatus, hex, hread, SResult.isErrorR]
      | readOk s =>
          cases s with
          | nil => simp [getContainerStatus, hex, hread, SResult.isErrorR]
          | cons a t =>
              cases hnum : numify (a :: t) with
              | error u =>
                  simp [getContainerStatus, hex, hread, hnum,
                    SResult.isErrorR, exceptOk]
              | ok n =>
                  simp [getContainerStatus, hex, hread, hnum,
                    SResult.isErrorR, exceptOk]

/-! ### Invariants of the containerizer model -/

theorem updF_eq {β : Type} (f : ContainerID → Option β) (c : ContainerID)
    (v : Option β) : updF f c v c = v := by
  simp [updF]

theorem updF_ne {β : Type} (f : ContainerID → Option β) (c c' : ContainerID)
    (v : Option β) (h : c' ≠ c) : updF f c v c' = f c' := by
  simp [updF, h]

theorem goodSys_init : GoodSys initSys := by
  intro c r h
  simp [initSys] at h

theorem goodSys_teardown (s : Sys) (c : ContainerID) (r : CRecord)
    (o : Outcome) (hs : GoodSys s) : GoodSys (teardown s c r o) := by
  intro c' r' h
  by_cases hc : c' = c
  · subst hc
    simp only [teardown] at h
    rw [updF_eq] at h
    exact Option.noConfusion h
  · simp only [teardown] at h ⊢
    rw [updF_ne _ _ _ _ hc] at h
    obtain ⟨h1, h2, h3⟩ := hs c' r' h
    exact ⟨by rw [updF_ne _ _ _ _ hc]; exact h1, h2, h3⟩

theorem goodSys_setRec (s : Sys) (c : ContainerID) (r : CRecord)
    (hs : GoodSys s) (hout : s.outcomes c = none)
    (h2 : (r.phase = .fetching ∨ r.phase = .provisioning) → r.prepared = [])
    (h3 : r.phase = .fetching → r.destroyRequested = false) :
    GoodSys (setRec s c r) := by
  intro c' r' h
  by_cases hc : c' = c
  · subst hc
    simp only [setRec] at h
    rw [updF_eq] at h
    injection h with h'
    subst h'
    exact ⟨hout, h2, h3⟩
  · simp only [setRec] at h
    rw [updF_ne _ _ _ _ hc] at h
    exact hs c' r' h

theorem goodSys_dispatchPrepare (s : Sys) (c : ContainerID) (r : CRecord)
    (hs : GoodSys s) (hout : s.outcomes c = none) :
    GoodSys (dispatchPrepare s c r) := by
  unfold dispatchPrepare
  by_cases hi : r.isolators = []
  · simp only [if_pos hi]
    exact goodSys_setRec s c _ hs hout (by intro h; rcases h with h | h <;> cases h)
      (by intro h; cases h)
  · simp only [if_neg hi]
    exact goodSys_setRec s c _ hs hout (by intro h; rcases h with h | h <;> cases h)
      (by intro h; cases h)

theorem goodSys_destroyStep (s : Sys) (c : ContainerID) (hs : GoodSys s) :
    GoodSys (destroyStep s c).2 := by
  unfold destroyStep
  cases hr : s.registry c with
  | none => exact hs
  | some r =>
      obtain ⟨hout, hprep, hfetch⟩ := hs c r hr
      by_cases hd : r.destroyRequested
      · simp only [if_pos hd]
        exact hs
      · simp only [if_neg hd]
        cases hph : r.phase with
        | fetching => exact goodSys_teardown s c r _ hs
        | provisioning =>
            exact goodSys_setRec s c _ hs hout
              (by intro _; simpa using hprep (Or.inr hph))
              (by intro h; simp [hph] at h)
        | preparing out =>
            exact goodSys_setRec s c _ hs hout
              (by intro h; rcases h with h | h <;> simp at h)
              (by intro h; simp at h)
        | forking =>
            exact goodSys_setRec s c _ hs hout
              (by intro h; rcases h with h | h <;> simp [hph] at h)
              (by intro h; simp [hph] at h)
        | running =>
            exact goodSys_setRec s c _ hs hout
              (by intro h; rcases h with h | h <;> simp at h)
              (by intro h; simp at h)
        | destroyingProc =>
            exact goodSys_setRec s c _ hs hout
              (by intro h; rcases h with h | h <;> simp [hph] at h)
              (by intro h; simp [hph] at h)

theorem goodSys_launchIns (s : Sys) (c : ContainerID) (hs : GoodSys s)
    (hasImage : Bool) (isolators : List Nat) :
    GoodSys { s with
      registry := updF s.registry c (some
        { hasImage := hasImage, isolators := isolators, prepared := []
          prepFailed := false, provisioned := false, pid := none
          destroyRequested := false, phase := .fetching })
      outcomes := updF s.outcomes c none } := by
  intro c' r' h
  dsimp only at h ⊢
  by_cases hc : c' = c
  · subst hc
    rw [updF_eq] at h
    injection h with h'
    subst h'
    refine ⟨by rw [updF_eq], by intro _; rfl, by intro _; rfl⟩
  · rw [updF_ne _ _ _ _ hc] at h
    obtain ⟨h1, h2, h3⟩ := hs c' r' h
    exact ⟨by rw [updF_ne _ _ _ _ hc]; exact h1, h2, h3⟩

theorem goodSys_step (s : Sys) (hs : GoodSys s) (e : Event) :
    GoodSys (step s e) := by
  cases e with
  | launch c hasImage isolators =>
      cases hr : s.registry c with
      | some r => simpa [step, hr] using hs
      | none =>
          simp only [step, hr]
          exact goodSys_launchIns s c hs hasImage isolators
  | fetchSettled c ok =>
      cases hr : s.registry c with
      | none => simpa [step, hr] using hs
      | some r =>
          obtain ⟨hout, hprep, hfetch⟩ := hs c r hr
          simp only [step, hr]
          split
          case isTrue hph =>
            split
            · split
              · exact goodSys_setRec s c _ hs hout
                  (by intro _; simpa using hprep (Or.inl hph)) (by simp)
              · exact goodSys_dispatchPrepare s c _ hs hout
            · exact goodSys_teardown s c _ _ hs
          case isFalse hph => exact hs
  | provisionSettled c ok =>
      cases hr : s.registry c with
      | none => simpa [step, hr] using hs
      | some r =>
          obtain ⟨hout, hprep, hfetch⟩ := hs c r hr
          simp only [step, hr]
          split
          case isTrue hph =>
            split
            · exact goodSys_teardown s c _ _ hs
            · split
              · exact goodSys_dispatchPrepare s c _ hs hout
              · exact goodSys_teardown s c _ _ hs
          case isFalse hph => exact hs
  | prepareSettled c iso ok =>
      cases hr : s.registry c with
      | none => simpa [step, hr] using hs
      | some r =>
          obtain ⟨hout, hprep, hfetch⟩ := hs c r hr
          simp only [step, hr]
          split
          · split
            · split
              · split
                · exact goodSys_teardown s c _ _ hs
                · exact goodSys_setRec s c _ hs hout (by simp) (by simp)
              · exact goodSys_setRec s c _ hs hout (by simp) (by simp)
            · exact hs
          · exact hs
  | forkSettled c res =>
      cases hr : s.registry c with
      | none => simpa [step, hr] using hs
      | some r =>
          obtain ⟨hout, hprep, hfetch⟩ := hs c r hr
          simp only [step, hr]
          split
          case isTrue hph =>
            split
            · exact goodSys_teardown s c _ _ hs
            · split
              · exact goodSys_setRec s c _ hs hout (by simp) (by simp)
              · exact goodSys_setRec s c _ hs hout (by simp) (by simp)
          case isFalse hph => exact hs
  | processExited c status =>
      cases hr : s.registry c with
      | none => simpa [step, hr] using hs
      | some r =>
          simp only [step, hr]
          split
          · exact goodSys_teardown s c _ _ hs
          · exact hs
  | destroyCall c => exact goodSys_destroyStep s c hs
  | launcherDestroySettled c ok =>
      cases hr : s.registry c with
      | none => simpa [step, hr] using hs
      | some r =>
          simp only [step, hr]
          split
          case isTrue hph =>
            split
            · exact goodSys_teardown s c _ _ hs
            · intro c' r' h
              exact goodSys_teardown s c r Outcome.destroyFailed hs c' r' h
          case isFalse hph => exact hs


theorem reachable_goodSys {s : Sys} (h : Reachable s) : GoodSys s := by
  induction h with
  | init => exact goodSys_init
  | next hs e ih => exact goodSys_step _ ih e

/-! ### Claims C5–C9: lifecycle behaviour (spec-modelled) -/

/-- C5, counterexample: destroy issued while the fetch stage is still in
flight (no fetch-settlement event ever occurs in the trace): the wait,
pending before the destroy, resolves at the destroy itself — it does not
stay pending until the in-flight stage settles.  This matches the test
`DestroyWhileFetching` ("should complete without waiting for the fetching
to finish") and refutes the claim's fetch half. -/
theorem destroy_while_fetching_resolves_at_once :
    waitQ sysFetching c0 = .pending ∧
    waitQ (step sysFetching (.destroyCall c0)) c0 = .resolvedT ⟨none⟩ := by
  decide

/-- C5 (amended): for a container whose destroy arrives during the
provision stage, the wait stays pending until the provision call settles
and then resolves with a Termination Result with no exit status, with no
isolator cleanup invoked (no isolator reached prepare); for a container
whose destroy arrives during the fetch stage, the fetch is abandoned and
the wait resolves at once — also with no exit status and no isolator
cleanup. -/
theorem destroy_during_fetch_provision (s : Sys) (hs : Reachable s)
    (c : ContainerID) (r : CRecord) (hr : s.registry c = some r) :
    (r.phase = .provisioning → r.destroyRequested = true →
      r.prepared = [] ∧
      waitQ s c = .pending ∧
      ∀ ok, waitQ (step s (.provisionSettled c ok)) c = .resolvedT ⟨none⟩ ∧
        cleanupsFor (step s (.provisionSettled c ok)) c = cleanupsFor s c) ∧
    (r.phase = .fetching →
      r.prepared = [] ∧
      waitQ (step s (.destroyCall c)) c = .resolvedT ⟨none⟩ ∧
      cleanupsFor (step s (.destroyCall c)) c = cleanupsFor s c) := by
  obtain ⟨hout, hprep, hfetch⟩ := reachable_goodSys hs c r hr
  constructor
  · intro hph hd
    have hpr : r.prepared = [] := hprep (Or.inr hph)
    refine ⟨hpr, by simp [waitQ, hout, hr], ?_⟩
    intro ok
    have hstep : step s (.provisionSettled c ok)
        = teardown s c { r with provisioned := true } (.term ⟨none⟩) := by
      simp [step, hr, hph, hd]
    rw [hstep]
    constructor
    · simp [waitQ, teardown, updF]
    · simp [cleanupsFor, teardown, hpr]
  · intro hph
    have hpr : r.prepared = [] := hprep (Or.inl hph)
    have hdr : r.destroyRequested = false := hfetch hph
    have hstep : step s (.destroyCall c) = teardown s c r (.term ⟨none⟩) := by
      simp [step, destroyStep, hr, hdr, hph]
    refine ⟨hpr, ?_, ?_⟩
    · rw [hstep]
      simp [waitQ, teardown, updF]
    · rw [hstep]
      simp [cleanupsFor, teardown, hpr]

theorem destroy_during_fetch_provision_witness :
    waitQ sysProvDestroy c0 = .pending ∧
    waitQ (step sysProvDestroy (.provisionSettled c0 true)) c0
      = .resolvedT ⟨none⟩ ∧
    waitQ (step sysFetching (.destroyCall c0)) c0 = .resolvedT ⟨none⟩ := by
  have hA := destroy_during_fetch_provision sysProvDestroy
    (Reachable.next (Reachable.next (Reachable.next Reachable.init
      (.launch c0 true [])) (.fetchSettled c0 true)) (.destroyCall c0))
    c0 recProvDestroy (by decide)
  have hB := destroy_during_fetch_provision sysFetching
    (Reachable.next Reachable.init (.launch c0 false []))
    c0 recFetching (by decide)
  exact ⟨(hA.1 (by decide) (by decide)).2.1,
    ((hA.1 (by decide) (by decide)).2.2 true).1,
    (hB.2 (by decide)).2.1⟩

/-- C6: for a container whose isolator prepare calls are outstanding when
destroy is issued, the wait remains pending until all outstanding prepare
calls settle; only when the last one settles does the termination resolve
(with no exit status). -/
theorem destroy_during_prepare (s : Sys) (hs : Reachable s)
    (c : ContainerID) (r : CRecord) (out : List Nat)
    (hr : s.registry c = some r) (hph : r.phase = .preparing out)
    (hd : r.destroyRequested = true) :
    waitQ s c = .pending ∧
    ∀ iso ok, iso ∈ out →
      ((out.erase iso ≠ [] →
          waitQ (step s (.prepareSettled c iso ok)) c = .pending) ∧
       (out.erase iso = [] →
          waitQ (step s (.prepareSettled c iso ok)) c = .resolvedT ⟨none⟩)) := by
  obtain ⟨hout, -, -⟩ := reachable_goodSys hs c r hr
  refine ⟨by simp [waitQ, hout, hr], ?_⟩
  intro iso ok hiso
  constructor
  · intro hne
    simp [step, hr, hph, hiso, hne, setRec, waitQ, updF, hout]
  · intro heq
    simp [step, hr, hph, hiso, heq, hd, teardown, waitQ, updF]

theorem destroy_during_prepare_witness :
    waitQ sysPrepDestroy c0 = .pending ∧
    waitQ (step sysPrepDestroy (.prepareSettled c0 1 true)) c0 = .pending ∧
    waitQ (step sysPrepDestroy1 (.prepareSettled c0 2 true)) c0
      = .resolvedT ⟨none⟩ := by
  have hA := destroy_during_prepare sysPrepDestroy
    (Reachable.next (Reachable.next (Reachable.next Reachable.init
      (.launch c0 false [1, 2])) (.fetchSettled c0 true)) (.destroyCall c0))
    c0 recPrepDestroy [1, 2] (by decide) (by decide) (by decide)
  have hB := destroy_during_prepare sysPrepDestroy1
    (Reachable.next (Reachable.next (Reachable.next (Reachable.next
      Reachable.init (.launch c0 false [1, 2])) (.fetchSettled c0 true))
      (.destroyCall c0)) (.prepareSettled c0 1 true))
    c0 recPrepDestroy1 [2] (by decide) (by decide) (by decide)
  exact ⟨hA.1, (hA.2 1 true (by decide)).1 (by decide),
    (hB.2 2 true (by decide)).2 (by decide)⟩

/-- C7: when the launcher's destroy call fails, the container's wait
surfaces a failure, the destroy-error counter increases by exactly one,
and teardown still proceeds best-effort: cleanup is invoked for exactly
the prepared isolators, and provisioner teardown for a provisioned root. -/
theorem launcher_destroy_failure (s : Sys) (c : ContainerID) (r : CRecord)
    (hr : s.registry c = some r) (hph : r.phase = .destroyingProc) :
    waitQ (step s (.launcherDestroySettled c false)) c = .failedW ∧
    (step s (.launcherDestroySettled c false)).destroyErrors
      = s.destroyErrors + 1 ∧
    (step s (.launcherDestroySettled c false)).cleanups
      = s.cleanups ++ r.prepared.map (fun i => (c, i)) ∧
    (step s (.launcherDestroySettled c false)).provisionerTeardowns
      = s.provisionerTeardowns
          ++ (if r.provisioned then [c] else []) := by
  have hstep : step s (.launcherDestroySettled c false)
      = { teardown s c r .destroyFailed with
          destroyErrors := s.destroyErrors + 1 } := by
    simp [step, hr, hph]
  rw [hstep]
  exact ⟨by simp [waitQ, teardown, updF], rfl, rfl, rfl⟩

theorem launcher_destroy_failure_witness :
    waitQ (step sysDestroying (.launcherDestroySettled c0 false)) c0
      = .failedW ∧
    (step sysDestroying (.launcherDestroySettled c0 false)).destroyErrors
      = sysDestroying.destroyErrors + 1 := by
  have h := launcher_destroy_failure sysDestroying c0 recDestroying
    (by decide) (by decide)
  exact ⟨h.1, h.2.1⟩

/-- C8: for every identity with no Registry entry — never launched, or
already removed after its teardown — destroy resolves immediately to
`false` and leaves the state unchanged, and a wait call resolves
immediately to an absent result; both replies are from types with no
error alternative for an unknown identity. -/
theorem unknown_container_immediate (s : Sys) (c : ContainerID)
    (hreg : s.registry c = none) :
    destroyStep s c = (.immediateFalse, s) ∧ waitCall s c = .absentNow := by
  constructor
  · simp [destroyStep, hreg]
  · simp [waitCall, hreg]

theorem unknown_container_immediate_witness :
    (destroyStep initSys c0 = (.immediateFalse, initSys) ∧
      waitCall initSys c0 = .absentNow) ∧
    (sysRemoved.outcomes c0 = some (.term ⟨none⟩) ∧
      destroyStep sysRemoved c0 = (.immediateFalse, sysRemoved) ∧
      waitCall sysRemoved c0 = .absentNow) :=
  ⟨unknown_container_immediate initSys c0 (by decide),
   by decide,
   unknown_container_immediate sysRemoved c0 (by decide)⟩

/-- C9: every identity whose checkpointed description shows it was
launched under a different containerizer implementation is skipped by
`recover`: it is not inserted into the Registry, so a `containers()`
query after recovery does not include it. -/
theorem recover_skips_foreign (entries : List RecoverEntry)
    (c : ContainerID)
    (h : ∀ e ∈ entries, e.id = c → e.mesosOwned = false) :
    containersMem (recover entries) c = false := by
  simp only [containersMem, recover]
  cases hf : (entries.filter (fun e => e.mesosOwned)).find?
      (fun e => e.id == c) with
  | none => simp [hf]
  | some e =>
      exfalso
      have hbeq := List.find?_some hf
      have hmem := List.mem_of_find?_eq_some hf
      rw [List.mem_filter] at hmem
      have hid : e.id = c := by simpa using hbeq
      have hfalse := h e hmem.1 hid
      have htrue : e.mesosOwned = true := by simpa using hmem.2
      rw [hfalse] at htrue
      exact Bool.noConfusion htrue

theorem recover_skips_foreign_witness :
    containersMem (recover recoverEntries9) c0 = false :=
  recover_skips_foreign recoverEntries9 c0 (by decide)
